import Mathlib

/-
Verification development for the kashvi framework's asynchronous execution
substrate: the job queue (pkg/queue), the bounded worker pool
(pkg/workerpool), the cron scheduler (pkg/schedule) and the asynchronous
Mongo log sink (pkg/logger/mongo_handler.go).

Machine integers are modelled as Nat/Int; byte strings on the queue wire are
modelled as JSON syntax trees (Go's encoding/json produces and consumes
exactly such trees; byte-level formatting is irrelevant to the claims).
Goroutine interleavings are modelled as explicit step relations on state
types, with reachability predicates for the invariant claims.
-/

/- ── JSON model (the wire format produced by encoding/json) ──────────────── -/

/-- A JSON document.  `num` carries integers only: every payload the queue
serializes in the claims is integral, and Go's json round-trips integers
exactly. -/
inductive JsonVal where
  | null
  | bool (b : Bool)
  | num (n : Int)
  | str (s : String)
  | arr (xs : List JsonVal)
  | obj (fields : List (String × JsonVal))

/-- Last-occurrence key lookup: Go's json.Unmarshal lets a later duplicate
key overwrite an earlier one. -/
def lookupLast (fs : List (String × JsonVal)) (k : String) : Option JsonVal :=
  match fs with
  | [] => none
  | (n, j) :: rest =>
    match lookupLast rest k with
    | some r => some r
    | none => if n = k then some j else none

/- ── Queue manager: pkg/queue (queue.go, failed_jobs.go) ─────────────────── -/

/-- Observable events of the queue worker: job attempts, backoff sleeps
(`time.Sleep(attempt * time.Second)`), log calls, and the dead-letter append
performed by `persistFailed`. -/
inductive QEvent where
  | attempt (k : Nat)
  | sleepSec (k : Nat)
  | logWarn (msg : String)
  | logInfo (msg : String)
  | logError (msg : String)
  | deadLetter (attempts : Nat) (err : Option String)
deriving DecidableEq

/-- `FailedJob` from queue.go: the in-memory dead-letter record
(`Job`, `Err`, `Attempts`; `FailedAt` is wall-clock and not modelled). -/
structure FailedJob (J : Type) where
  job : J
  err : Option String
  attempts : Nat
deriving DecidableEq

/-- The retry loop body of `Manager.runWithRetry`.  Go iterates
`for attempt := 1; attempt <= m.maxRetry; attempt++`; here `remaining`
counts the iterations the guard still allows (`maxRetry - attempt + 1`).
`handle k` is the result of the k-th `job.Handle()` call (`none` = success).
On a failed attempt the worker logs a warning and sleeps `attempt` seconds;
on exhaustion it calls `persistFailed(job, typeName, lastErr, m.maxRetry)`
(which appends one in-memory `FailedJob`) and logs at error level. -/
def retryLoop (J : Type) (job : J) (handle : Nat → Option String) (maxRetry : Nat)
    (attempt : Nat) (remaining : Nat) (lastErr : Option String) :
    List QEvent × List (FailedJob J) :=
  match remaining with
  | 0 =>
    ([QEvent.deadLetter maxRetry lastErr, QEvent.logError "queue: job exhausted retries"],
     [⟨job, lastErr, maxRetry⟩])
  | r + 1 =>
    match handle attempt with
    | some e =>
      let rest := retryLoop J job handle maxRetry (attempt + 1) r (some e)
      (QEvent.attempt attempt :: QEvent.logWarn "queue: job failed, retrying" ::
        QEvent.sleepSec attempt :: rest.1, rest.2)
    | none => ([QEvent.attempt attempt, QEvent.logInfo "queue: job processed"], [])

/-- `Manager.runWithRetry job typeName`: the loop starts at attempt 1 with
`maxRetry` iterations allowed and `lastErr = nil`. -/
def runWithRetry (J : Type) (job : J) (handle : Nat → Option String) (maxRetry : Nat) :
    List QEvent × List (FailedJob J) :=
  retryLoop J job handle maxRetry 1 maxRetry none

/-- The envelope struct of queue.go after json.Unmarshal: `Type` (json key
"type") and `Payload` (json key "payload", a RawMessage that is `nil` when
the key is absent). -/
structure Envelope where
  type : String
  payload : Option JsonVal

/-- json.Unmarshal of raw bytes into the `envelope` struct.  A non-object,
non-null document or a non-string "type" value is an unmarshal error
(`none`); a missing "type" key leaves the zero value ""; unmarshal of JSON
null into a struct is a no-op that succeeds. -/
def decodeEnvelope (raw : JsonVal) : Option Envelope :=
  match raw with
  | JsonVal.obj fs =>
    match lookupLast fs "type" with
    | none => some ⟨"", lookupLast fs "payload"⟩
    | some (JsonVal.str s) => some ⟨s, lookupLast fs "payload"⟩
    | some _ => none
  | JsonVal.null => some ⟨"", none⟩
  | _ => none

/-- The envelope value `Manager.push` marshals: `{"type": typeName,
"payload": payload}` (struct field order Type, Payload). -/
def pushEnvelope (typeName : String) (payload : JsonVal) : JsonVal :=
  JsonVal.obj [("type", JsonVal.str typeName), ("payload", payload)]

/-- The envelope `Dispatch job` puts on the wire: `json.Marshal(job)`
(modelled by `marshalJob`, `none` = marshal error) wrapped by `push`.
Marshalling the envelope struct itself cannot fail (its fields are a string
and a RawMessage), so that error branch of `push` is dead. -/
def dispatchEnvelope (J : Type) (typeName : J → String) (marshalJob : J → Option JsonVal)
    (job : J) : Option JsonVal :=
  (marshalJob job).map (fun p => pushEnvelope (typeName job) p)

/-- `Manager.push` = `Dispatch`: marshal the job, wrap it in an envelope and
hand it to the driver; the driver's error (`driverPush`) is returned to the
caller unchanged.  `some e` is a returned error, `none` is success. -/
def pushJob (J : Type) (typeName : J → String) (marshalJob : J → Option JsonVal)
    (driverPush : JsonVal → Option String) (job : J) : Option String :=
  match dispatchEnvelope J typeName marshalJob job with
  | none => some ("queue: marshal job " ++ typeName job)
  | some env => driverPush env

/-- `DispatchAfter job delay` spawns a goroutine (sleep `delay`, then
`Dispatch`) and returns no value to its caller: the first component is what
the caller receives, the second the events of the spawned goroutine.  A
failed delayed dispatch is logged at error level and never surfaces. -/
def dispatchAfter (J : Type) (typeName : J → String) (marshalJob : J → Option JsonVal)
    (driverPush : JsonVal → Option String) (job : J) (delay : Nat) :
    Option String × List QEvent :=
  (none,
    QEvent.sleepSec delay ::
      match pushJob J typeName marshalJob driverPush job with
      | some e => [QEvent.logError ("queue: delayed dispatch failed: " ++ e)]
      | none => [])

/-- `Manager.process` followed by `runWithRetry`: decode the envelope (error
log + drop on failure), look up the factory by type name (warn log + drop on
a miss), unmarshal the payload into the fresh instance (error log + drop on
failure; a `nil` RawMessage fails to unmarshal), then run with retries.
`registry t` is the factory+unmarshal pipeline for type `t`, `handle` the
job's Handle behaviour. -/
def processRun (J : Type) (registry : String → Option (JsonVal → Option J))
    (handle : J → Nat → Option String) (maxRetry : Nat) (raw : JsonVal) :
    List QEvent × List (FailedJob J) :=
  match decodeEnvelope raw with
  | none => ([QEvent.logError "queue: bad envelope"], [])
  | some env =>
    match registry env.type with
    | none => ([QEvent.logWarn "queue: unregistered job type"], [])
    | some dec =>
      match env.payload.bind dec with
      | none => ([QEvent.logError "queue: unmarshal payload"], [])
      | some job => runWithRetry J job (handle job) maxRetry

/-- The deserialization half of the worker: decode the envelope, resolve the
registered factory, decode the payload into the fresh instance. -/
def deserializeJob (J : Type) (registry : String → Option (JsonVal → Option J))
    (raw : JsonVal) : Option J :=
  (decodeEnvelope raw).bind fun env =>
    (registry env.type).bind fun dec => env.payload.bind dec

/-- True iff the event is a warn-level log call. -/
def isWarnEvent : QEvent → Bool
  | QEvent.logWarn _ => true
  | _ => false

/- ── Job values of a registered Go job type ──────────────────────────────── -/

/-- A primitive field value of a user job struct. -/
inductive FieldVal where
  | str (s : String)
  | int (n : Int)
  | bool (b : Bool)
deriving DecidableEq

/-- The declared type of a job struct field. -/
inductive FieldTy where
  | str
  | int
  | bool
deriving DecidableEq

def tyOfField : FieldVal → FieldTy
  | FieldVal.str _ => FieldTy.str
  | FieldVal.int _ => FieldTy.int
  | FieldVal.bool _ => FieldTy.bool

/-- Go's zero value for each field type. -/
def zeroOfTy : FieldTy → FieldVal
  | FieldTy.str => FieldVal.str ""
  | FieldTy.int => FieldVal.int 0
  | FieldTy.bool => FieldVal.bool false

/-- A job value: the exported fields of the user's struct, in declaration
order (json.Marshal emits them in that order). -/
abbrev JobVal : Type := List (String × FieldVal)

def encodeFieldVal : FieldVal → JsonVal
  | FieldVal.str s => JsonVal.str s
  | FieldVal.int n => JsonVal.num n
  | FieldVal.bool b => JsonVal.bool b

/-- json.Marshal of a job struct: an object of its exported fields. -/
def encodeJob (v : JobVal) : JsonVal :=
  JsonVal.obj (v.map fun p => (p.1, encodeFieldVal p.2))

/-- json.Unmarshal of one JSON value into a struct field of the given
declared type; a type mismatch is an unmarshal error. -/
def decodeFieldVal : FieldTy → JsonVal → Option FieldVal
  | FieldTy.str, JsonVal.str s => some (FieldVal.str s)
  | FieldTy.int, JsonVal.num n => some (FieldVal.int n)
  | FieldTy.bool, JsonVal.bool b => some (FieldVal.bool b)
  | _, _ => none

/-- json.Unmarshal of an object's fields into a struct with the given
schema: each declared field takes the (last) matching key's value, or the
zero value when the key is absent; unknown JSON keys are ignored. -/
def decodeFields (fs : List (String × JsonVal)) :
    List (String × FieldTy) → Option JobVal
  | [] => some []
  | (n, ty) :: sch =>
    match (match lookupLast fs n with
           | none => some (zeroOfTy ty)
           | some j => decodeFieldVal ty j) with
    | none => none
    | some fv =>
      match decodeFields fs sch with
      | none => none
      | some rest => some ((n, fv) :: rest)

/-- json.Unmarshal of a payload into a fresh zero instance of the struct
with schema `sch` (what the registered factory plus Unmarshal do). -/
def decodeJob (sch : List (String × FieldTy)) : JsonVal → Option JobVal
  | JsonVal.obj fs => decodeFields fs sch
  | JsonVal.null => some (sch.map fun p => (p.1, zeroOfTy p.2))
  | _ => none

/- ── Worker pool: pkg/workerpool ─────────────────────────────────────────── -/

/-- Result of a submit call (`nil`, `ErrPoolFull`, `ErrPoolClosed`). -/
inductive SubmitResult where
  | ok
  | poolFull
  | poolClosed
deriving DecidableEq

/-- Worker pool state: `size` workers (fixed at New), the bounded task
channel of capacity `chanCap` holding `buffered` tasks, `executing` tasks
currently inside workers, and the `closeCh` flag. -/
structure PoolState where
  size : Nat
  chanCap : Nat
  buffered : List Nat
  executing : Nat
  closed : Bool
deriving DecidableEq

/-- `workerpool.New size`: `size <= 0` is coerced to 1; the task channel is
allocated with capacity `size*2`; `size` workers are spawned. -/
def poolNew (size : Int) : PoolState :=
  let s : Nat := if size ≤ 0 then 1 else size.toNat
  ⟨s, s * 2, [], 0, false⟩

/-- `Pool.Submit`: check the close flag, then a non-blocking channel send —
it succeeds exactly when the buffer has room (a receiver can only be waiting
when the buffer is empty, so room is the full condition). -/
def poolSubmit (p : PoolState) (t : Nat) : PoolState × SubmitResult :=
  if p.closed then (p, SubmitResult.poolClosed)
  else if p.buffered.length < p.chanCap then
    ({ p with buffered := p.buffered ++ [t] }, SubmitResult.ok)
  else (p, SubmitResult.poolFull)

/-- `Pool.SubmitWait`: a blocking send; this is its effect at the instant the
send completes (the enabling condition — room in the channel — is imposed by
the step relation). -/
def poolSubmitWait (p : PoolState) (t : Nat) : PoolState :=
  { p with buffered := p.buffered ++ [t] }

/-- A worker receiving from the task channel (`for task := range p.tasks`). -/
def workerTake (p : PoolState) : PoolState :=
  match p.buffered with
  | [] => p
  | _ :: rest => { p with buffered := rest, executing := p.executing + 1 }

/-- A worker finishing a task (normally or via the recover barrier). -/
def workerFinish (p : PoolState) : PoolState :=
  { p with executing := p.executing - 1 }

/-- `Pool.Shutdown` (first call): the one-shot latch closes `closeCh`. -/
def poolClose (p : PoolState) : PoolState :=
  { p with closed := true }

/-- One concurrent step of the pool system. -/
inductive PoolStep : PoolState → PoolState → Prop where
  | submit (p : PoolState) (t : Nat) : PoolStep p (poolSubmit p t).1
  | submitWait (p : PoolState) (t : Nat) :
      p.closed = false → p.buffered.length < p.chanCap →
      PoolStep p (poolSubmitWait p t)
  | take (p : PoolState) :
      p.buffered ≠ [] → p.executing < p.size → PoolStep p (workerTake p)
  | finish (p : PoolState) : 0 < p.executing → PoolStep p (workerFinish p)
  | close (p : PoolState) : PoolStep p (poolClose p)

/-- Pool states reachable from `poolNew size`. -/
inductive PoolReach (size : Int) : PoolState → Prop where
  | init : PoolReach size (poolNew size)
  | step {p q : PoolState} : PoolReach size p → PoolStep p q → PoolReach size q

/- ── Scheduler: pkg/schedule ─────────────────────────────────────────────── -/

/-- A calendar instant as the cron matcher sees it: `t.Minute()`,
`t.Hour()`, `t.Day()`, `int(t.Month())`, `int(t.Weekday())`. -/
structure CronTime where
  minute : Int
  hour : Int
  day : Int
  month : Int
  weekday : Int
deriving DecidableEq

/-- unicode.IsSpace restricted to the ASCII space characters (the higher
Unicode space classes never appear in a cron expression). -/
def goIsSpace (c : Char) : Bool :=
  c = ' ' || c = '\t' || c = '\n' || c = '\x0d' || c = '\x0b' || c = '\x0c'

/-- Single pass of strings.Fields: `cur` is the reversed current field. -/
def splitFieldsAux (s : List Char) (cur : List Char) : List (List Char) :=
  match s with
  | [] => if cur = [] then [] else [cur.reverse]
  | c :: cs =>
    if goIsSpace c then
      if cur = [] then splitFieldsAux cs []
      else cur.reverse :: splitFieldsAux cs []
    else splitFieldsAux cs (c :: cur)

/-- strings.Fields: split around runs of whitespace, dropping empties. -/
def splitFields (s : List Char) : List (List Char) :=
  splitFieldsAux s []

/-- Value of a digit string (most-significant first). -/
def digitsToNat (ds : List Char) : Nat :=
  ds.foldl (fun acc c => 10 * acc + (c.toNat - 48)) 0

/-- fmt.Sscanf's `%d` verb on a field: an optional sign followed by at least
one decimal digit; returns the value and the unconsumed rest, or `none`
when scanning fails (in which case the Go variable keeps its zero value). -/
def scanIntFrom (s : List Char) : Option (Int × List Char) :=
  let sr : Int × List Char :=
    match s with
    | [] => (1, [])
    | c :: t => if c = '-' then (-1, t) else if c = '+' then (1, t) else (1, c :: t)
  let ds := sr.2.takeWhile (fun c => c.isDigit)
  if ds = [] then none
  else some (sr.1 * (digitsToNat ds : Int), sr.2.dropWhile (fun c => c.isDigit))

/-- `matchField field val` (schedule.go): `*` matches everything; `*/step`
matches when the scanned step is positive and divides `val` (a failed scan
leaves step = 0, which matches nothing); a field containing `-` is scanned
as `lo-hi` and matches the inclusive range (failed scans leave 0); anything
else is an exact match against the scanned number (failed scan leaves 0). -/
def matchField (field : List Char) (val : Int) : Bool :=
  if field = ['*'] then true
  else if field.take 2 = ['*', '/'] then
    let step : Int :=
      match scanIntFrom (field.drop 2) with
      | some (n, _) => n
      | none => 0
    step > 0 && val % step == 0
  else if field.contains '-' then
    let lohi : Int × Int :=
      match scanIntFrom field with
      | none => (0, 0)
      | some (n, rest) =>
        match rest with
        | [] => (n, 0)
        | c :: r2 =>
          if c = '-' then
            match scanIntFrom r2 with
            | some (m, _) => (n, m)
            | none => (n, 0)
          else (n, 0)
    lohi.1 ≤ val && val ≤ lohi.2
  else
    let n : Int :=
      match scanIntFrom field with
      | some (n, _) => n
      | none => 0
    n == val

/-- `matchCron expr t`: exactly 5 whitespace-separated fields, matched
against minute, hour, day-of-month, month and weekday. -/
def matchCron (expr : List Char) (t : CronTime) : Bool :=
  match splitFields expr with
  | [f1, f2, f3, f4, f5] =>
    matchField f1 t.minute && matchField f2 t.hour && matchField f3 t.day &&
      matchField f4 t.month && matchField f5 t.weekday
  | _ => false

/-- A scheduler entry (schedule.go `entry`), with `inFlight` as a history
variable counting launched-but-unfinished executions of the task. -/
structure SchedEntry where
  id : String
  interval : Nat
  cronExpr : List Char
  lastRun : Option Nat
  running : Bool
  noOverlap : Bool
  inFlight : Nat
deriving DecidableEq

/-- `isDue`: cron entries match the current calendar instant; interval
entries fire on a zero `lastRun` or once `now - lastRun >= interval`. -/
def isDue (e : SchedEntry) (now : Nat) (nowCal : CronTime) : Bool :=
  if e.cronExpr ≠ [] then matchCron e.cronExpr nowCal
  else
    match e.lastRun with
    | none => true
    | some lr => e.interval ≤ now - lr

/-- `dispatch e`: under the entry's lock, skip (warn log, state untouched)
when `noOverlap && running`; otherwise set `running`, stamp `lastRun` and
launch the task (second component: whether a goroutine was launched). -/
def dispatchEntry (e : SchedEntry) (now : Nat) : SchedEntry × Bool × List QEvent :=
  if e.noOverlap && e.running then
    (e, false, [QEvent.logWarn "schedule: skipping overlapping task"])
  else
    ({ e with running := true, lastRun := some now, inFlight := e.inFlight + 1 },
      true, [QEvent.logInfo "schedule: running task"])

/-- The launched goroutine's guaranteed epilogue: clear `running` (the
deferred block runs even on panic). -/
def finishEntry (e : SchedEntry) : SchedEntry :=
  { e with running := false, inFlight := e.inFlight - 1 }

/-- Entry states reachable from a registered entry `e0` by dispatches and
task completions. -/
inductive EntryReach (e0 : SchedEntry) : SchedEntry → Prop where
  | init : EntryReach e0 e0
  | disp {e : SchedEntry} (now : Nat) :
      EntryReach e0 e → EntryReach e0 (dispatchEntry e now).1
  | fin {e : SchedEntry} :
      EntryReach e0 e → 0 < e.inFlight → EntryReach e0 (finishEntry e)

/-- One scheduler tick: the entries found due (the loop dispatches exactly
these). -/
def dueEntries (entries : List SchedEntry) (now : Nat) (nowCal : CronTime) :
    List SchedEntry :=
  entries.filter (fun e => isDue e now nowCal)

/- ── Async log sink: pkg/logger/mongo_handler.go ─────────────────────────── -/

def mongoQueueSize : Nat := 4096

def mongoBatchSize : Nat := 50

/-- State of the sink: the buffered channel's contents, the drainer's batch
buffer, and the batches flushed so far (each one InsertMany call). -/
structure SinkState (D : Type) where
  queue : List D
  batch : List D
  flushed : List (List D)

/-- The tail of `MongoHandler.Handle`: a non-blocking send — enqueue when
the channel has room, otherwise drop the record silently; both branches
return immediately. -/
def handleEnqueue (D : Type) (queue : List D) (doc : D) : List D :=
  if queue.length < mongoQueueSize then queue ++ [doc] else queue

/-- `drainLoop`'s receive case: append the record to the batch and flush as
soon as the batch reaches `mongoBatchSize`. -/
def drainRecv (D : Type) (s : SinkState D) : SinkState D :=
  match s.queue with
  | [] => s
  | d :: rest =>
    let b := s.batch ++ [d]
    if mongoBatchSize ≤ b.length then ⟨rest, [], s.flushed ++ [b]⟩
    else ⟨rest, b, s.flushed⟩

/-- `drainLoop`'s ticker case: flush whatever batch has accumulated. -/
def drainTick (D : Type) (s : SinkState D) : SinkState D :=
  if s.batch.isEmpty then s else ⟨s.queue, [], s.flushed ++ [s.batch]⟩

/-- One concurrent step of the sink system: an emitter calls Handle, or the
drainer receives a record or takes a ticker tick. -/
inductive SinkStep (D : Type) : SinkState D → SinkState D → Prop where
  | emit (s : SinkState D) (d : D) :
      SinkStep D s ⟨handleEnqueue D s.queue d, s.batch, s.flushed⟩
  | recv (s : SinkState D) : s.queue ≠ [] → SinkStep D s (drainRecv D s)
  | tick (s : SinkState D) : SinkStep D s (drainTick D s)

/-- Sink states reachable from the freshly constructed handler. -/
inductive SinkReach (D : Type) : SinkState D → Prop where
  | init : SinkReach D ⟨[], [], []⟩
  | step {s q : SinkState D} : SinkReach D s → SinkStep D s q → SinkReach D q

/- ── Helper lemmas: retry loop ───────────────────────────────────────────── -/

theorem retryLoop_allFail (J : Type) (job : J) (errs : Nat → String) (maxRetry : Nat) :
    ∀ (r a : Nat) (le : Option String),
      retryLoop J job (fun i => some (errs i)) maxRetry a (r + 1) le =
        ((List.range' a (r + 1)).flatMap
            (fun k => [QEvent.attempt k, QEvent.logWarn "queue: job failed, retrying",
              QEvent.sleepSec k]) ++
          [QEvent.deadLetter maxRetry (some (errs (a + r))),
            QEvent.logError "queue: job exhausted retries"],
          [⟨job, some (errs (a + r)), maxRetry⟩]) := by
  intro r
  induction r with
  | zero =>
    intro a le
    simp [retryLoop, List.range']
  | succ r ih =>
    intro a le
    have h1 : retryLoop J job (fun i => some (errs i)) maxRetry a (r + 1 + 1) le =
        (QEvent.attempt a :: QEvent.logWarn "queue: job failed, retrying" ::
          QEvent.sleepSec a ::
          (retryLoop J job (fun i => some (errs i)) maxRetry (a + 1) (r + 1) (some (errs a))).1,
         (retryLoop J job (fun i => some (errs i)) maxRetry (a + 1) (r + 1) (some (errs a))).2) := rfl
    rw [h1, ih (a + 1) (some (errs a))]
    have h2 : a + 1 + r = a + (r + 1) := by omega
    simp [List.range', h2]

/-- The worker trace asserted by claim C1 read literally: linear backoff
with sleeps only between consecutive attempts, so no sleep after the final
failed attempt, then the dead-letter append. -/
def claimC1Trace (n : Nat) (errs : Nat → String) : List QEvent :=
  (List.range' 1 (n - 1)).flatMap
    (fun k => [QEvent.attempt k, QEvent.logWarn "queue: job failed, retrying",
      QEvent.sleepSec k]) ++
  [QEvent.attempt n, QEvent.logWarn "queue: job failed, retrying",
    QEvent.deadLetter n (some (errs n)), QEvent.logError "queue: job exhausted retries"]

/-- Claim C1 (amended): for a job whose Handle fails on every attempt and a
retry budget n ≥ 1, the worker makes exactly the attempts 1..n, sleeping k
seconds after each failed attempt k — including the final one, before the
dead-letter append — and then appends exactly one dead-letter record with
Attempts = n and the final attempt's error. -/
theorem c1_retry_exhaustion (J : Type) (job : J) (errs : Nat → String) (n : Nat)
    (h : 1 ≤ n) :
    runWithRetry J job (fun i => some (errs i)) n =
      ((List.range' 1 n).flatMap
          (fun k => [QEvent.attempt k, QEvent.logWarn "queue: job failed, retrying",
            QEvent.sleepSec k]) ++
        [QEvent.deadLetter n (some (errs n)), QEvent.logError "queue: job exhausted retries"],
        [⟨job, some (errs n), n⟩]) := by
  obtain ⟨r, rfl⟩ : ∃ r, n = r + 1 := ⟨n - 1, by omega⟩
  have := retryLoop_allFail J job errs (r + 1) r 1 none
  simpa [runWithRetry, Nat.add_comm 1 r] using this

/-- Witness for `c1_retry_exhaustion` at n = 2. -/
theorem c1_retry_exhaustion_witness :
    runWithRetry Unit () (fun i => some ((fun _ => "boom") i)) 2 =
      ((List.range' 1 2).flatMap
          (fun k => [QEvent.attempt k, QEvent.logWarn "queue: job failed, retrying",
            QEvent.sleepSec k]) ++
        [QEvent.deadLetter 2 (some "boom"), QEvent.logError "queue: job exhausted retries"],
        [⟨(), some "boom", 2⟩]) :=
  c1_retry_exhaustion Unit () (fun _ => "boom") 2 (by decide)

/-- Counterexample to claim C1 as stated: with max_retry = 1 and an
always-failing job, the code's trace is not the claimed trace — the worker
sleeps 1 second after the single (final) failed attempt, so backoff is not
only between consecutive attempts. -/
theorem c1_counterexample :
    (runWithRetry Unit () (fun _ => some "boom") 1).1 ≠
        claimC1Trace 1 (fun _ => "boom") ∧
      QEvent.sleepSec 1 ∈ (runWithRetry Unit () (fun _ => some "boom") 1).1 := by
  constructor
  · decide
  · decide

/-- Claim C3 (amended): dispatch returns serialization and driver failures
to its caller, but dispatch_after returns nothing — a failure during the
delayed dispatch is logged at error level inside the spawned goroutine and
is never returned to the caller. -/
theorem c3_dispatchAfter_swallows (J : Type) (typeName : J → String)
    (marshalJob : J → Option JsonVal) (driverPush : JsonVal → Option String)
    (job : J) (delay : Nat) :
    (dispatchAfter J typeName marshalJob driverPush job delay).1 = none ∧
    (∀ e, pushJob J typeName marshalJob driverPush job = some e →
      (dispatchAfter J typeName marshalJob driverPush job delay).2 =
        [QEvent.sleepSec delay,
          QEvent.logError ("queue: delayed dispatch failed: " ++ e)]) ∧
    (pushJob J typeName marshalJob driverPush job = none →
      (dispatchAfter J typeName marshalJob driverPush job delay).2 =
        [QEvent.sleepSec delay]) := by
  refine ⟨rfl, ?_, ?_⟩
  · intro e he
    simp [dispatchAfter, he]
  · intro he
    simp [dispatchAfter, he]

/-- Witness for `c3_dispatchAfter_swallows`: a concrete failing driver. -/
theorem c3_dispatchAfter_swallows_witness :
    (dispatchAfter Unit (fun _ => "T") (fun _ => some JsonVal.null)
        (fun _ => some "redis down") () 3).1 = none ∧
      (dispatchAfter Unit (fun _ => "T") (fun _ => some JsonVal.null)
          (fun _ => some "redis down") () 3).2 =
        [QEvent.sleepSec 3, QEvent.logError "queue: delayed dispatch failed: redis down"] := by
  have h := c3_dispatchAfter_swallows Unit (fun _ => "T") (fun _ => some JsonVal.null)
    (fun _ => some "redis down") () 3
  exact ⟨h.1, h.2.1 "redis down" rfl⟩

/-- Counterexample to claim C3 as stated: for a job whose driver push fails,
dispatch returns the error but dispatch_after returns nothing to its caller,
so the two do not report the same failures. -/
theorem c3_counterexample :
    pushJob Unit (fun _ => "T") (fun _ => some JsonVal.null)
        (fun _ => some "redis down") () = some "redis down" ∧
      (dispatchAfter Unit (fun _ => "T") (fun _ => some JsonVal.null)
          (fun _ => some "redis down") () 3).1 = none :=
  ⟨rfl, rfl⟩

/-- Claim C4 (amended): every popped envelope that fails to deserialize,
names an unregistered type, or whose payload fails to unmarshal is dropped:
the handler is never invoked (no attempt event), no retry is performed and
no dead-letter record is created; the unregistered-type case is logged at
warn level, while the malformed-envelope and bad-payload cases are logged at
error level. -/
theorem c4_drop_paths (J : Type) (registry : String → Option (JsonVal → Option J))
    (handle : J → Nat → Option String) (maxRetry : Nat) (raw : JsonVal) :
    (decodeEnvelope raw = none →
      processRun J registry handle maxRetry raw =
        ([QEvent.logError "queue: bad envelope"], [])) ∧
    (∀ env, decodeEnvelope raw = some env → registry env.type = none →
      processRun J registry handle maxRetry raw =
        ([QEvent.logWarn "queue: unregistered job type"], [])) ∧
    (∀ env dec, decodeEnvelope raw = some env → registry env.type = some dec →
      env.payload.bind dec = none →
      processRun J registry handle maxRetry raw =
        ([QEvent.logError "queue: unmarshal payload"], [])) ∧
    ((decodeEnvelope raw = none ∨
        (∃ env, decodeEnvelope raw = some env ∧
          (registry env.type = none ∨
            ∃ dec, registry env.type = some dec ∧ env.payload.bind dec = none))) →
      (processRun J registry handle maxRetry raw).2 = [] ∧
        ∀ k, QEvent.attempt k ∉ (processRun J registry handle maxRetry raw).1) := by
  refine ⟨?_, ?_, ?_, ?_⟩
  · intro h
    simp [processRun, h]
  · intro env henv hreg
    simp [processRun, henv, hreg]
  · intro env dec henv hreg hpay
    simp [processRun, henv, hreg, hpay]
  · rintro (h | ⟨env, henv, hreg | ⟨dec, hdec, hpay⟩⟩)
    · simp [processRun, h]
    · simp [processRun, henv, hreg]
    · simp [processRun, henv, hdec, hpay]

/-- Witness for `c4_drop_paths`: a malformed envelope and an unregistered
type, both dropped. -/
theorem c4_drop_paths_witness :
    processRun Unit (fun _ => none) (fun _ _ => none) 3 (JsonVal.str "oops") =
        ([QEvent.logError "queue: bad envelope"], []) ∧
      processRun Unit (fun _ => none) (fun _ _ => none) 3
          (pushEnvelope "ghost" JsonVal.null) =
        ([QEvent.logWarn "queue: unregistered job type"], []) := by
  refine ⟨(c4_drop_paths Unit (fun _ => none) (fun _ _ => none) 3 (JsonVal.str "oops")).1 rfl, ?_⟩
  exact (c4_drop_paths Unit (fun _ => none) (fun _ _ => none) 3
    (pushEnvelope "ghost" JsonVal.null)).2.1 ⟨"ghost", some JsonVal.null⟩ rfl rfl

/-- Counterexample to claim C4 as stated: a malformed envelope is dropped
with an error-level log call, not a warn-level one. -/
theorem c4_counterexample :
    ((processRun Unit (fun _ => none) (fun _ _ => none) 3 (JsonVal.str "oops")).1.all
        isWarnEvent) = false ∧
      (processRun Unit (fun _ => none) (fun _ _ => none) 3 (JsonVal.str "oops")).1 =
        [QEvent.logError "queue: bad envelope"] := by
  constructor
  · decide
  · decide

/- ── Helper: pool reachability invariant ─────────────────────────────────── -/

theorem poolReach_inv (size : Int) (p : PoolState) (h : PoolReach size p) :
    p.chanCap = 2 * p.size ∧ p.buffered.length ≤ p.chanCap := by
  induction h with
  | init =>
    constructor
    · simp [poolNew, Nat.mul_comm]
    · simp [poolNew]
  | @step p q hr hstep ih =>
    cases hstep with
    | submit t =>
      unfold poolSubmit
      split
      · exact ih
      · split
        · refine ⟨ih.1, ?_⟩
          simp only [List.length_append, List.length_cons, List.length_nil]
          omega
        · exact ih
    | submitWait t hcl hroom =>
      refine ⟨ih.1, ?_⟩
      simp only [poolSubmitWait, List.length_append, List.length_cons, List.length_nil]
      omega
    | take hne hex =>
      unfold workerTake
      cases hb : p.buffered with
      | nil => exact ih
      | cons x rest =>
        refine ⟨ih.1, ?_⟩
        have h2 := ih.2
        rw [hb] at h2
        simp only [List.length_cons] at h2
        simp only [List.length_cons]
        omega
    | finish hex => exact ih
    | close => exact ih

/-- Claim C8: `New c` coerces a non-positive capacity to 1, spawns
max(c, 1) workers, allocates the task channel with capacity exactly
2 × max(c, 1) — in particular `New 0` yields a pool of capacity 1 — and in
every reachable pool state the task channel holds at most 2 × capacity
tasks. -/
theorem c8_pool_bounds (c : Int) :
    ((poolNew c).size : Int) = max c 1 ∧
    (poolNew c).chanCap = 2 * (poolNew c).size ∧
    (poolNew 0).size = 1 ∧
    (∀ p, PoolReach c p → p.buffered.length ≤ 2 * p.size) := by
  refine ⟨?_, ?_, rfl, ?_⟩
  · simp only [poolNew]
    split
    · rename_i hc
      omega
    · rename_i hc
      rw [Int.toNat_of_nonneg (by omega)]
      omega
  · simp [poolNew, Nat.mul_comm]
  · intro p hp
    have h := poolReach_inv c p hp
    omega

/-- Witness for `c8_pool_bounds`: the freshly constructed pool of capacity 0
is within its channel bound. -/
theorem c8_pool_bounds_witness :
    ((poolNew 0).size : Int) = max 0 1 ∧
      (poolNew 0).buffered.length ≤ 2 * (poolNew 0).size :=
  ⟨(c8_pool_bounds 0).1, (c8_pool_bounds 0).2.2.2 (poolNew 0) PoolReach.init⟩

/-- Claim C2 (amended): for an open pool, a non-blocking submit returns
PoolFull exactly when the task channel already holds its full capacity of
buffered tasks (2 × pool capacity, so six accepted blocking tasks — two
executing, four buffered — for a pool of capacity 2), and is accepted
whenever the channel has room. -/
theorem c2_submit_backpressure (p : PoolState) (t : Nat) (hc : p.closed = false) :
    (p.chanCap ≤ p.buffered.length → poolSubmit p t = (p, SubmitResult.poolFull)) ∧
    (p.buffered.length < p.chanCap → (poolSubmit p t).2 = SubmitResult.ok) := by
  constructor
  · intro hfull
    unfold poolSubmit
    rw [hc]
    simp only [Bool.false_eq_true, if_false]
    rw [if_neg (by omega)]
  · intro hroom
    unfold poolSubmit
    rw [hc]
    simp only [Bool.false_eq_true, if_false]
    rw [if_pos hroom]

/-- Witness for `c2_submit_backpressure`: after six blocking tasks are
accepted by a capacity-2 pool (two taken by workers, four buffered), the
next non-blocking submit returns PoolFull; with only two buffered it is
accepted. -/
theorem c2_submit_backpressure_witness :
    poolSubmit
        (poolSubmitWait
          (poolSubmitWait
            (workerTake (workerTake
              (poolSubmitWait (poolSubmitWait (poolSubmitWait (poolSubmitWait
                (poolNew 2) 1) 2) 3) 4)))
            5) 6) 7 =
      (poolSubmitWait
          (poolSubmitWait
            (workerTake (workerTake
              (poolSubmitWait (poolSubmitWait (poolSubmitWait (poolSubmitWait
                (poolNew 2) 1) 2) 3) 4)))
            5) 6, SubmitResult.poolFull) :=
  (c2_submit_backpressure _ 7 (by decide)).1 (by decide)

/-- Counterexample to claim C2 as stated: capacity 2 gives a task channel of
capacity 4; in the claimed state — four tasks accepted via blocking submits,
two taken into workers, two buffered — the channel has room, so the next
non-blocking submit is accepted, not rejected with PoolFull.  The state is
reachable by legal pool steps. -/
theorem c2_counterexample :
    (workerTake (workerTake
        (poolSubmitWait (poolSubmitWait (poolSubmitWait (poolSubmitWait
          (poolNew 2) 1) 2) 3) 4))).executing = 2 ∧
    (workerTake (workerTake
        (poolSubmitWait (poolSubmitWait (poolSubmitWait (poolSubmitWait
          (poolNew 2) 1) 2) 3) 4))).buffered.length = 2 ∧
    PoolReach 2
      (workerTake (workerTake
        (poolSubmitWait (poolSubmitWait (poolSubmitWait (poolSubmitWait
          (poolNew 2) 1) 2) 3) 4))) ∧
    (poolSubmit
        (workerTake (workerTake
          (poolSubmitWait (poolSubmitWait (poolSubmitWait (poolSubmitWait
            (poolNew 2) 1) 2) 3) 4))) 5).2 ≠ SubmitResult.poolFull := by
  refine ⟨by decide, by decide, ?_, by decide⟩
  have h0 : PoolReach 2 (poolNew 2) := PoolReach.init
  have h1 := h0.step (PoolStep.submitWait _ 1 (by decide) (by decide))
  have h2 := h1.step (PoolStep.submitWait _ 2 (by decide) (by decide))
  have h3 := h2.step (PoolStep.submitWait _ 3 (by decide) (by decide))
  have h4 := h3.step (PoolStep.submitWait _ 4 (by decide) (by decide))
  have h5 := h4.step (PoolStep.take _ (by decide) (by decide))
  exact h5.step (PoolStep.take _ (by decide) (by decide))

/- ── Helper: scheduler entry invariant ───────────────────────────────────── -/

theorem entryReach_inv (e0 : SchedEntry) (h1 : e0.noOverlap = true)
    (h2 : e0.running = false) (h3 : e0.inFlight = 0) :
    ∀ e, EntryReach e0 e →
      e.noOverlap = true ∧ e.inFlight ≤ 1 ∧ (e.running = false → e.inFlight = 0) := by
  intro e he
  induction he with
  | init => exact ⟨h1, by omega, fun _ => h3⟩
  | @disp e now hr ih =>
    cases hrun : e.running with
    | true =>
      have heq : (dispatchEntry e now).1 = e := by
        simp [dispatchEntry, ih.1, hrun]
      rw [heq]
      exact ih
    | false =>
      have hz : e.inFlight = 0 := ih.2.2 hrun
      have heq : (dispatchEntry e now).1 =
          { e with running := true, lastRun := some now, inFlight := e.inFlight + 1 } := by
        simp [dispatchEntry, ih.1, hrun]
      rw [heq]
      refine ⟨ih.1, ?_, ?_⟩
      · show e.inFlight + 1 ≤ 1
        omega
      · intro hc
        exact absurd hc (fun h => Bool.noConfusion h)
  | @fin e hr hpos ih =>
    exact ⟨ih.1, by simp only [finishEntry]; omega,
      fun _ => by simp only [finishEntry]; omega⟩

/-- Claim C5: for a scheduler entry registered with no_overlap = true
(initially not running, nothing in flight), at most one execution of its
task is in flight in any reachable state; a dispatch that finds
running = true logs a skip and leaves the entry unchanged; otherwise
dispatch sets running = true and last_run = now before launching the task;
and the launched unit clears running when it finishes. -/
theorem c5_no_overlap (e0 : SchedEntry) (h1 : e0.noOverlap = true)
    (h2 : e0.running = false) (h3 : e0.inFlight = 0) :
    (∀ e, EntryReach e0 e → e.inFlight ≤ 1) ∧
    (∀ (e : SchedEntry) (now : Nat), e.noOverlap = true → e.running = true →
      dispatchEntry e now =
        (e, false, [QEvent.logWarn "schedule: skipping overlapping task"])) ∧
    (∀ (e : SchedEntry) (now : Nat), e.running = false →
      (dispatchEntry e now).1.running = true ∧
      (dispatchEntry e now).1.lastRun = some now ∧
      (dispatchEntry e now).2.1 = true) ∧
    (∀ e : SchedEntry, (finishEntry e).running = false) := by
  refine ⟨fun e he => (entryReach_inv e0 h1 h2 h3 e he).2.1, ?_, ?_, fun e => rfl⟩
  · intro e now hov hrun
    simp [dispatchEntry, hov, hrun]
  · intro e now hrun
    simp [dispatchEntry, hrun]

/-- Witness for `c5_no_overlap`: a concrete registered entry, a state it
reaches by one dispatch, and the skip/launch/finish equations at concrete
entries. -/
theorem c5_no_overlap_witness :
    (dispatchEntry ⟨"sync", 60, [], none, false, true, 0⟩ 7).1.inFlight ≤ 1 ∧
    dispatchEntry ⟨"sync", 60, [], some 7, true, true, 1⟩ 9 =
      (⟨"sync", 60, [], some 7, true, true, 1⟩, false,
        [QEvent.logWarn "schedule: skipping overlapping task"]) ∧
    (dispatchEntry ⟨"sync", 60, [], none, false, true, 0⟩ 7).1.running = true ∧
    (finishEntry ⟨"sync", 60, [], some 7, true, true, 1⟩).running = false := by
  have h := c5_no_overlap ⟨"sync", 60, [], none, false, true, 0⟩ rfl rfl rfl
  exact ⟨h.1 _ (EntryReach.disp 7 EntryReach.init),
    h.2.1 _ 9 rfl rfl,
    (h.2.2.1 _ 7 rfl).1,
    h.2.2.2 _⟩

/- ── Helper: sink reachability invariant ─────────────────────────────────── -/

theorem sinkReach_inv (D : Type) (s : SinkState D) (h : SinkReach D s) :
    s.queue.length ≤ mongoQueueSize ∧ s.batch.length < mongoBatchSize := by
  induction h with
  | init => exact ⟨by simp [mongoQueueSize], by simp [mongoBatchSize]⟩
  | @step s q hr hstep ih =>
    cases hstep with
    | emit d =>
      refine ⟨?_, ih.2⟩
      unfold handleEnqueue
      split
      · simp only [List.length_append, List.length_cons, List.length_nil]
        omega
      · exact ih.1
    | recv hne =>
      cases hq : s.queue with
      | nil => exact absurd hq hne
      | cons d rest =>
        have h1 := ih.1
        rw [hq] at h1
        simp only [List.length_cons] at h1
        have heq : drainRecv D s =
            (if mongoBatchSize ≤ (s.batch ++ [d]).length then
              ⟨rest, [], s.flushed ++ [s.batch ++ [d]]⟩
            else ⟨rest, s.batch ++ [d], s.flushed⟩) := by
          unfold drainRecv
          rw [hq]
        rw [heq]
        split
        · constructor
          · show rest.length ≤ mongoQueueSize
            omega
          · show ([] : List D).length < mongoBatchSize
            simp [mongoBatchSize]
        · rename_i hlt
          constructor
          · show rest.length ≤ mongoQueueSize
            omega
          · show (s.batch ++ [d]).length < mongoBatchSize
            omega
    | tick =>
      unfold drainTick
      split
      · exact ih
      · exact ⟨ih.1, by simp [mongoBatchSize]⟩

/-- Claim C7: the log sink's emit path never blocks the emitter.  The record
queue has fixed capacity 4096; `Handle` appends the record exactly when the
queue holds fewer than 4096 records and otherwise leaves it unchanged (the
record is silently dropped) — both branches of the total function return
immediately; in every reachable state the queue stays within 4096 and the
drainer's pending batch below 50; and the drainer flushes the batch as soon
as it reaches 50 records. -/
theorem c7_sink_nonblocking (D : Type) :
    mongoQueueSize = 4096 ∧ mongoBatchSize = 50 ∧
    (∀ (q : List D) (d : D), q.length < 4096 → handleEnqueue D q d = q ++ [d]) ∧
    (∀ (q : List D) (d : D), 4096 ≤ q.length → handleEnqueue D q d = q) ∧
    (∀ s : SinkState D, SinkReach D s →
      s.queue.length ≤ 4096 ∧ s.batch.length < 50) ∧
    (∀ (s : SinkState D) (d : D) (rest : List D), s.queue = d :: rest →
      50 ≤ (s.batch ++ [d]).length →
      drainRecv D s = ⟨rest, [], s.flushed ++ [s.batch ++ [d]]⟩) ∧
    (∀ (s : SinkState D) (d : D) (rest : List D), s.queue = d :: rest →
      (s.batch ++ [d]).length < 50 →
      drainRecv D s = ⟨rest, s.batch ++ [d], s.flushed⟩) := by
  refine ⟨rfl, rfl, ?_, ?_, ?_, ?_, ?_⟩
  · intro q d hq
    simp [handleEnqueue, mongoQueueSize, hq]
  · intro q d hq
    simp [handleEnqueue, mongoQueueSize]
    omega
  · intro s hs
    have h := sinkReach_inv D s hs
    simp only [mongoQueueSize, mongoBatchSize] at h
    exact h
  · intro s d rest hq hfull
    unfold drainRecv
    rw [hq]
    simp only []
    rw [if_pos (by simpa [mongoBatchSize] using hfull)]
  · intro s d rest hq hlt
    unfold drainRecv
    rw [hq]
    simp only []
    rw [if_neg (by simp only [mongoBatchSize]; omega)]

/-- Witness for `c7_sink_nonblocking`: an enqueue with room, the initial
state's bound, and a flush at exactly batch size 50. -/
theorem c7_sink_nonblocking_witness :
    handleEnqueue Nat [] 7 = [] ++ [7] ∧
      ((⟨[], [], []⟩ : SinkState Nat).queue.length ≤ 4096 ∧
        (⟨[], [], []⟩ : SinkState Nat).batch.length < 50) ∧
      drainRecv Nat ⟨[5], List.replicate 49 0, []⟩ =
        ⟨[], [], [List.replicate 49 0 ++ [5]]⟩ := by
  have h := c7_sink_nonblocking Nat
  exact ⟨h.2.2.1 [] 7 (by decide),
    h.2.2.2.2.1 ⟨[], [], []⟩ (SinkReach.init),
    h.2.2.2.2.2.1 ⟨[5], List.replicate 49 0, []⟩ 5 [] rfl (by decide)⟩

/- ── Helpers: decimal digit strings and the field scanner ────────────────── -/

/-- The decimal digit character for a digit value. -/
def digitChar (d : Nat) : Char :=
  if d = 0 then '0' else if d = 1 then '1' else if d = 2 then '2'
  else if d = 3 then '3' else if d = 4 then '4' else if d = 5 then '5'
  else if d = 6 then '6' else if d = 7 then '7' else if d = 8 then '8' else '9'

/-- The decimal numeral of a natural number, most-significant digit first. -/
def natChars (n : Nat) : List Char :=
  if n = 0 then ['0'] else (Nat.digits 10 n).reverse.map digitChar

theorem digitChar_isDigit (d : Nat) : (digitChar d).isDigit = true := by
  unfold digitChar
  split
  · decide
  all_goals split
  all_goals first | decide | (split <;> first | decide | (split <;> first | decide | (split <;> first | decide | (split <;> first | decide | (split <;> first | decide | (split <;> first | decide | (split <;> decide)))))))

theorem digitChar_toNat (d : Nat) (h : d < 10) : (digitChar d).toNat - 48 = d := by
  interval_cases d <;> decide

theorem natChars_ne_nil (n : Nat) : natChars n ≠ [] := by
  unfold natChars
  split
  · simp
  · rename_i h
    simp [Nat.digits_ne_nil_iff_ne_zero, h]

theorem natChars_all_digits (n : Nat) : ∀ c ∈ natChars n, c.isDigit = true := by
  intro c hc
  unfold natChars at hc
  split at hc
  · simp at hc
    rw [hc]
    decide
  · simp only [List.mem_map] at hc
    obtain ⟨d, _, rfl⟩ := hc
    exact digitChar_isDigit d

theorem foldl_digitChar (ds : List Nat) (h : ∀ d ∈ ds, d < 10) :
    ∀ init : Nat,
      (ds.map digitChar).foldl (fun acc c => 10 * acc + (c.toNat - 48)) init =
        ds.foldl (fun acc d => 10 * acc + d) init := by
  induction ds with
  | nil => intro init; rfl
  | cons d ds ih =>
    intro init
    simp only [List.map_cons, List.foldl_cons]
    rw [digitChar_toNat d (h d (List.mem_cons_self d ds))]
    exact ih (fun x hx => h x (List.mem_cons_of_mem d hx)) _

theorem foldl_reverse_ofDigits (ds : List Nat) :
    ∀ init : Nat,
      ds.reverse.foldl (fun acc d => 10 * acc + d) init =
        init * 10 ^ ds.length + Nat.ofDigits 10 ds := by
  induction ds with
  | nil => intro init; simp [Nat.ofDigits]
  | cons d ds ih =>
    intro init
    simp only [List.reverse_cons, List.foldl_append, List.foldl_cons, List.foldl_nil]
    rw [ih init, Nat.ofDigits_cons, List.length_cons, pow_succ]
    ring

theorem digitsToNat_natChars (n : Nat) : digitsToNat (natChars n) = n := by
  unfold natChars
  split
  · rename_i h
    rw [h]
    decide
  · unfold digitsToNat
    rw [foldl_digitChar (Nat.digits 10 n).reverse
      (fun d hd => Nat.digits_lt_base (by norm_num) (List.mem_reverse.mp hd)),
      foldl_reverse_ofDigits]
    simp [Nat.ofDigits_digits]

theorem takeWhile_append_all (p : Char → Bool) (l r : List Char)
    (hl : ∀ x ∈ l, p x = true) : (l ++ r).takeWhile p = l ++ r.takeWhile p := by
  induction l with
  | nil => rfl
  | cons c cs ih =>
    simp only [List.cons_append, List.takeWhile_cons]
    rw [hl c (List.mem_cons_self c cs)]
    simp only [if_true]
    rw [ih (fun x hx => hl x (List.mem_cons_of_mem c hx))]

theorem dropWhile_append_all (p : Char → Bool) (l r : List Char)
    (hl : ∀ x ∈ l, p x = true) : (l ++ r).dropWhile p = r.dropWhile p := by
  induction l with
  | nil => rfl
  | cons c cs ih =>
    simp only [List.cons_append, List.dropWhile_cons]
    rw [hl c (List.mem_cons_self c cs)]
    simp only [if_true]
    exact ih (fun x hx => hl x (List.mem_cons_of_mem c hx))

theorem dropWhile_of_takeWhile_nil (p : Char → Bool) (r : List Char)
    (h : r.takeWhile p = []) : r.dropWhile p = r := by
  cases r with
  | nil => rfl
  | cons c cs =>
    rw [List.takeWhile_cons] at h
    rw [List.dropWhile_cons]
    cases hp : p c with
    | false => simp
    | true => rw [hp] at h; simp at h

theorem scanIntFrom_cons_digit (c : Char) (t : List Char) (hc : c.isDigit = true) :
    scanIntFrom (c :: t) =
      (if (c :: t).takeWhile (fun c => c.isDigit) = [] then none
       else some ((digitsToNat ((c :: t).takeWhile (fun c => c.isDigit)) : Int),
         (c :: t).dropWhile (fun c => c.isDigit))) := by
  have h1 : ¬(c = '-') := by
    intro h
    rw [h] at hc
    exact absurd hc (by decide)
  have h2 : ¬(c = '+') := by
    intro h
    rw [h] at hc
    exact absurd hc (by decide)
  unfold scanIntFrom
  simp [h1, h2]

/-- Scanning `%d` over a digit block followed by a non-digit remainder
consumes exactly the block. -/
theorem scanIntFrom_block (a : Nat) (r : List Char)
    (hr : r.takeWhile (fun c => c.isDigit) = []) :
    scanIntFrom (natChars a ++ r) = some ((a : Int), r) := by
  obtain ⟨c, cs, hcc⟩ : ∃ c cs, natChars a = c :: cs := by
    cases h : natChars a with
    | nil => exact absurd h (natChars_ne_nil a)
    | cons c cs => exact ⟨c, cs, rfl⟩
  have hdig : ∀ x ∈ natChars a, x.isDigit = true := natChars_all_digits a
  have hc : c.isDigit = true := hdig c (by rw [hcc]; exact List.mem_cons_self c cs)
  have htake : (natChars a ++ r).takeWhile (fun c => c.isDigit) = natChars a := by
    rw [takeWhile_append_all _ _ _ hdig, hr, List.append_nil]
  have hdrop : (natChars a ++ r).dropWhile (fun c => c.isDigit) = r := by
    rw [dropWhile_append_all _ _ _ hdig, dropWhile_of_takeWhile_nil _ _ hr]
  have hsplit : natChars a ++ r = c :: (cs ++ r) := by rw [hcc]; rfl
  rw [hsplit] at htake hdrop ⊢
  rw [scanIntFrom_cons_digit c (cs ++ r) hc, htake, hdrop,
    if_neg (natChars_ne_nil a), digitsToNat_natChars]

/-- The step value Sscanf leaves in `step` for the suffix of a `*/...`
field: the scanned integer, or 0 when scanning fails. -/
def scannedStep (rest : List Char) : Int :=
  match scanIntFrom rest with
  | some (n, _) => n
  | none => 0

theorem matchField_star_slash (rest : List Char) (v : Int) :
    matchField ('*' :: '/' :: rest) v =
      (scannedStep rest > 0 && v % scannedStep rest == 0) := by
  unfold matchField scannedStep
  rw [if_neg (by simp),
    if_pos (show List.take 2 ('*' :: '/' :: rest) = ['*', '/'] from rfl)]
  rcases h : scanIntFrom rest with _ | ⟨n, r⟩ <;> simp [List.drop, h]

theorem matchField_range (a b : Nat) (v : Int) :
    matchField (natChars a ++ '-' :: natChars b) v =
      (decide ((a : Int) ≤ v) && decide (v ≤ (b : Int))) := by
  obtain ⟨c, cs, hcc⟩ : ∃ c cs, natChars a = c :: cs := by
    cases h : natChars a with
    | nil => exact absurd h (natChars_ne_nil a)
    | cons c cs => exact ⟨c, cs, rfl⟩
  have hc : c.isDigit = true := natChars_all_digits a c (by rw [hcc]; exact List.mem_cons_self c cs)
  have h1 : ¬(natChars a ++ '-' :: natChars b = ['*']) := by
    intro h
    have hlen := congrArg List.length h
    have hpos : 0 < (natChars a).length := List.length_pos.mpr (natChars_ne_nil a)
    simp only [List.length_append, List.length_cons, List.length_nil] at hlen
    omega
  have h2 : ¬((natChars a ++ '-' :: natChars b).take 2 = ['*', '/']) := by
    intro h
    rw [hcc] at h
    simp only [List.cons_append, List.take_succ_cons] at h
    have hstar : c = '*' := (List.cons.injEq _ _ _ _).mp h |>.1
    rw [hstar] at hc
    exact absurd hc (by decide)
  have h3 : (natChars a ++ '-' :: natChars b).contains '-' = true := by
    have hm : '-' ∈ natChars a ++ '-' :: natChars b :=
      List.mem_append.mpr (Or.inr (List.mem_cons_self _ _))
    simpa [List.contains_eq_any_beq, List.any_eq_true] using ⟨'-', hm, by simp⟩
  have htw : ('-' :: natChars b).takeWhile (fun c => c.isDigit) = [] := by
    rw [List.takeWhile_cons]
    rfl
  have hb : scanIntFrom (natChars b) = some ((b : Int), []) := by
    simpa using scanIntFrom_block b [] rfl
  unfold matchField
  rw [if_neg h1, if_neg h2, if_pos h3, scanIntFrom_block a ('-' :: natChars b) htw]
  simp [hb]

/-- Claim C6: cron matching follows the 5-field grammar — `* * * * *`
matches every time; `*/5 * * * *` matches exactly the times whose minute is
divisible by 5; `0 3 * * *` matches exactly minute 0, hour 3; a field `a-b`
matches exactly the values in the inclusive range; and `*/s` with a positive
step s matches a value v iff v mod s = 0. -/
theorem c6_cron_grammar :
    (∀ t : CronTime, matchCron "* * * * *".toList t = true) ∧
    (∀ t : CronTime, matchCron "*/5 * * * *".toList t = true ↔ t.minute % 5 = 0) ∧
    (∀ t : CronTime, matchCron "0 3 * * *".toList t = true ↔
      (t.minute = 0 ∧ t.hour = 3)) ∧
    (∀ (a b : Nat) (v : Int),
      matchField (natChars a ++ '-' :: natChars b) v = true ↔
        ((a : Int) ≤ v ∧ v ≤ (b : Int))) ∧
    (∀ (s : Nat) (v : Int), 0 < s →
      (matchField ('*' :: '/' :: natChars s) v = true ↔ v % (s : Int) = 0)) := by
  refine ⟨fun t => rfl, ?_, ?_, ?_, ?_⟩
  · intro t
    have h : matchCron "*/5 * * * *".toList t =
        ((t.minute % 5 == 0) && true && true && true && true) := rfl
    rw [h]
    simp only [Bool.and_true, beq_iff_eq]
  · intro t
    have h : matchCron "0 3 * * *".toList t =
        ((0 == t.minute) && (3 == t.hour) && true && true && true) := rfl
    rw [h]
    simp only [Bool.and_true, Bool.and_eq_true, beq_iff_eq]
    constructor
    · rintro ⟨hm, hh⟩
      exact ⟨hm.symm, hh.symm⟩
    · rintro ⟨hm, hh⟩
      exact ⟨hm.symm, hh.symm⟩
  · intro a b v
    rw [matchField_range]
    simp
  · intro s v hs
    have hscan : scannedStep (natChars s) = (s : Int) := by
      unfold scannedStep
      rw [show scanIntFrom (natChars s) = some ((s : Int), []) by
        simpa using scanIntFrom_block s [] rfl]
    rw [matchField_star_slash, hscan]
    have hpos : (0 : Int) < (s : Int) := by exact_mod_cast hs
    simp [hpos]

/-- Witness for `c6_cron_grammar`: concrete instances of each part,
including the positive-step part at s = 5. -/
theorem c6_cron_grammar_witness :
    matchCron "* * * * *".toList ⟨44, 13, 5, 9, 2⟩ = true ∧
      (matchCron "*/5 * * * *".toList ⟨40, 13, 5, 9, 2⟩ = true ↔ (40 : Int) % 5 = 0) ∧
      (matchField (natChars 5 ++ '-' :: natChars 10) 7 = true ↔
        ((5 : Nat) : Int) ≤ 7 ∧ (7 : Int) ≤ ((10 : Nat) : Int)) ∧
      (matchField ('*' :: '/' :: natChars 5) 10 = true ↔ (10 : Int) % ((5 : Nat) : Int) = 0) := by
  exact ⟨c6_cron_grammar.1 ⟨44, 13, 5, 9, 2⟩,
    c6_cron_grammar.2.1 ⟨40, 13, 5, 9, 2⟩,
    c6_cron_grammar.2.2.2.1 5 10 7,
    c6_cron_grammar.2.2.2.2 5 10 (by decide)⟩

/- ── Helpers: malformed cron expressions ─────────────────────────────────── -/

theorem matchCron_not5 (expr : List Char) (t : CronTime)
    (h : (splitFields expr).length ≠ 5) : matchCron expr t = false := by
  unfold matchCron
  rcases hs : splitFields expr with _ | ⟨f1, _ | ⟨f2, _ | ⟨f3, _ | ⟨f4, _ | ⟨f5, _ | ⟨f6, rest⟩⟩⟩⟩⟩⟩
  · rfl
  · rfl
  · rfl
  · rfl
  · rfl
  · rw [hs] at h
    simp at h
  · rfl

theorem matchCron_zero_step (expr : List Char) (t : CronTime)
    (hmem : ('*' :: '/' :: '0' :: []) ∈ splitFields expr) : matchCron expr t = false := by
  have hz : ∀ v : Int, matchField ('*' :: '/' :: '0' :: []) v = false := fun v => rfl
  unfold matchCron
  rcases hs : splitFields expr with _ | ⟨f1, _ | ⟨f2, _ | ⟨f3, _ | ⟨f4, _ | ⟨f5, _ | ⟨f6, rest⟩⟩⟩⟩⟩⟩
  · rfl
  · rfl
  · rfl
  · rfl
  · rfl
  · rw [hs] at hmem
    simp only [List.mem_cons, List.not_mem_nil, or_false] at hmem
    rcases hmem with h | h | h | h | h <;> rw [← h] <;> simp [hz]
  · rfl

/-- Claim C10 (amended): cron evaluation is total (all evaluation functions
here are total Lean functions) and a malformed expression never fires
through the cron matcher — an expression without exactly 5
whitespace-separated fields matches no time, a `*/s` field whose scanned
step is non-positive (in particular `*/0`) matches no value, and a
scheduler entry carrying such a **non-empty** expression is never among the
entries a tick dispatches.  The empty expression is the exception: `isDue`
treats `cronExpr == ""` as interval mode, so a `Cron("")` entry is
dispatched on every tick (see the counterexample below). -/
theorem c10_malformed_never_fires :
    (∀ (expr : List Char) (t : CronTime),
      (splitFields expr).length ≠ 5 → matchCron expr t = false) ∧
    (∀ (rest : List Char) (v : Int), scannedStep rest ≤ 0 →
      matchField ('*' :: '/' :: rest) v = false) ∧
    (∀ v : Int, matchField "*/0".toList v = false) ∧
    (∀ (entries : List SchedEntry) (now : Nat) (nowCal : CronTime) (e : SchedEntry),
      e.cronExpr ≠ [] → (splitFields e.cronExpr).length ≠ 5 →
      e ∉ dueEntries entries now nowCal) ∧
    (∀ (entries : List SchedEntry) (now : Nat) (nowCal : CronTime) (e : SchedEntry),
      e.cronExpr ≠ [] → ('*' :: '/' :: '0' :: []) ∈ splitFields e.cronExpr →
      e ∉ dueEntries entries now nowCal) := by
  refine ⟨matchCron_not5, ?_, fun v => rfl, ?_, ?_⟩
  · intro rest v h
    rw [matchField_star_slash]
    have hn : ¬(scannedStep rest > 0) := by omega
    simp [hn]
  · intro entries now nowCal e hne h5 hmem
    rw [dueEntries, List.mem_filter] at hmem
    have hdue := hmem.2
    rw [isDue, if_pos hne, matchCron_not5 e.cronExpr nowCal h5] at hdue
    exact absurd hdue (by decide)
  · intro entries now nowCal e hne hz hmem
    rw [dueEntries, List.mem_filter] at hmem
    have hdue := hmem.2
    rw [isDue, if_pos hne, matchCron_zero_step e.cronExpr nowCal hz] at hdue
    exact absurd hdue (by decide)

/-- Witness for `c10_malformed_never_fires`: a 3-field expression matches
nothing and its entry is never due; a `*/0` entry is never due. -/
theorem c10_malformed_never_fires_witness :
    matchCron "* * *".toList ⟨0, 0, 1, 1, 0⟩ = false ∧
      matchField ('*' :: '/' :: "x".toList) 0 = false ∧
      matchField "*/0".toList 7 = false ∧
      (⟨"bad", 0, "* * *".toList, none, false, false, 0⟩ : SchedEntry) ∉
        dueEntries [⟨"bad", 0, "* * *".toList, none, false, false, 0⟩] 0 ⟨0, 0, 1, 1, 0⟩ ∧
      (⟨"zero", 0, "*/0 * * * *".toList, none, false, false, 0⟩ : SchedEntry) ∉
        dueEntries [⟨"zero", 0, "*/0 * * * *".toList, none, false, false, 0⟩] 0 ⟨0, 0, 1, 1, 0⟩ := by
  refine ⟨c10_malformed_never_fires.1 "* * *".toList ⟨0, 0, 1, 1, 0⟩ (by decide),
    c10_malformed_never_fires.2.1 "x".toList 0 (by decide),
    c10_malformed_never_fires.2.2.1 7,
    c10_malformed_never_fires.2.2.2.1 _ 0 ⟨0, 0, 1, 1, 0⟩ _ (by decide) (by decide),
    c10_malformed_never_fires.2.2.2.2 _ 0 ⟨0, 0, 1, 1, 0⟩ _ (by decide) (by decide)⟩

/-- Counterexample to claim C10 as stated: the empty expression has 0 (not
5) whitespace-separated fields and matches no time, yet the entry
`Cron("")` registers is dispatched — `isDue` takes the interval branch for
an empty `cronExpr`, and with interval 0 and a zero `lastRun` the entry is
due on every tick, so "never dispatched" fails. -/
theorem c10_counterexample :
    (splitFields ([] : List Char)).length ≠ 5 ∧
      matchCron ([] : List Char) ⟨0, 0, 1, 1, 0⟩ = false ∧
      isDue ⟨"empty", 0, [], none, false, false, 0⟩ 0 ⟨0, 0, 1, 1, 0⟩ = true ∧
      (⟨"empty", 0, [], none, false, false, 0⟩ : SchedEntry) ∈
        dueEntries [⟨"empty", 0, [], none, false, false, 0⟩] 0 ⟨0, 0, 1, 1, 0⟩ := by
  refine ⟨by decide, by decide, by decide, ?_⟩
  decide

/- ── Helpers: payload round trip ─────────────────────────────────────────── -/

theorem lookupLast_cons (n0 : String) (j : JsonVal) (fs : List (String × JsonVal))
    (k : String) :
    lookupLast ((n0, j) :: fs) k =
      (match lookupLast fs k with
       | some r => some r
       | none => if n0 = k then some j else none) := rfl

theorem lookupLast_not_mem (fs : List (String × JsonVal)) (k : String)
    (h : k ∉ fs.map Prod.fst) : lookupLast fs k = none := by
  induction fs with
  | nil => rfl
  | cons p rest ih =>
    obtain ⟨n, j⟩ := p
    simp only [List.map_cons, List.mem_cons] at h
    push_neg at h
    rw [lookupLast_cons, ih h.2]
    simp only []
    rw [if_neg (fun he => h.1 he.symm)]

theorem lookupLast_encode (v : JobVal) (n : String) (fv : FieldVal)
    (hmem : (n, fv) ∈ v) (hnd : (v.map Prod.fst).Nodup) :
    lookupLast (v.map fun p => (p.1, encodeFieldVal p.2)) n =
      some (encodeFieldVal fv) := by
  induction v with
  | nil => cases hmem
  | cons p rest ih =>
    obtain ⟨m, g⟩ := p
    have hnd' := hnd
    simp only [List.map_cons, List.nodup_cons] at hnd'
    rcases List.mem_cons.mp hmem with he | hm
    · obtain ⟨rfl, rfl⟩ := Prod.mk.injEq n fv m g ▸ And.intro (congrArg Prod.fst he) (congrArg Prod.snd he)
      have hnone : lookupLast (rest.map fun p => (p.1, encodeFieldVal p.2)) n = none := by
        apply lookupLast_not_mem
        simpa [List.map_map, Function.comp] using hnd'.1
      simp only [List.map_cons]
      rw [lookupLast_cons, hnone]
      simp
    · have hr := ih hm hnd'.2
      simp only [List.map_cons]
      rw [lookupLast_cons, hr]

theorem decodeFieldVal_encode (fv : FieldVal) :
    decodeFieldVal (tyOfField fv) (encodeFieldVal fv) = some fv := by
  cases fv <;> rfl

theorem decodeFields_encode (v : JobVal) (hnd : (v.map Prod.fst).Nodup) :
    ∀ w : JobVal, (∀ p ∈ w, p ∈ v) →
      decodeFields (v.map fun p => (p.1, encodeFieldVal p.2))
        (w.map fun p => (p.1, tyOfField p.2)) = some w := by
  intro w
  induction w with
  | nil => intro _; rfl
  | cons p w ih =>
    intro hsub
    obtain ⟨n, fv⟩ := p
    have hmem : (n, fv) ∈ v := hsub (n, fv) (List.mem_cons_self _ _)
    have hlk := lookupLast_encode v n fv hmem hnd
    have hrec := ih (fun q hq => hsub q (List.mem_cons_of_mem _ hq))
    simp only [List.map_cons]
    unfold decodeFields
    rw [hlk]
    simp only []
    rw [decodeFieldVal_encode, hrec]

/-- Claim C9: for every job value of a registered type (distinct exported
field names, factory registered for its type name), deserializing the
envelope produced by dispatch — decode the envelope, look up the factory by
type name, decode the payload into the fresh instance — yields the job that
was dispatched: the payload round-trips losslessly. -/
theorem c9_roundtrip (t : String) (sch : List (String × FieldTy)) (v : JobVal)
    (registry : String → Option (JsonVal → Option JobVal))
    (hreg : registry t = some (decodeJob sch))
    (hsch : v.map (fun p => (p.1, tyOfField p.2)) = sch)
    (hnd : (v.map Prod.fst).Nodup) :
    (dispatchEnvelope JobVal (fun _ => t) (fun j => some (encodeJob j)) v).bind
      (deserializeJob JobVal registry) = some v := by
  subst hsch
  show (registry t).bind (fun dec => (some (encodeJob v)).bind dec) = some v
  rw [hreg]
  exact decodeFields_encode v hnd v (fun p hp => hp)

/-- Witness for `c9_roundtrip`: a concrete echo job round-trips through the
envelope. -/
theorem c9_roundtrip_witness :
    (dispatchEnvelope JobVal (fun _ => "*queue_test.echoJob")
        (fun j => some (encodeJob j)) [("Val", FieldVal.str "hello")]).bind
      (deserializeJob JobVal
        (fun s => if s = "*queue_test.echoJob"
          then some (decodeJob [("Val", FieldTy.str)]) else none)) =
      some [("Val", FieldVal.str "hello")] :=
  c9_roundtrip "*queue_test.echoJob" [("Val", FieldTy.str)]
    [("Val", FieldVal.str "hello")]
    (fun s => if s = "*queue_test.echoJob"
      then some (decodeJob [("Val", FieldTy.str)]) else none)
    (by simp) rfl (by simp)
